import Mathlib

/-!
# MiniPaaS server — shallow embedding

Verification development for the MiniPaaS application supervisor
(`server.js`).  Absolute filesystem paths are modelled as lists of path
components (strings), mirroring Node's POSIX path handling: `path.join`
appends components and `path.resolve` normalises `.`/`..`/empty segments
against an absolute base that is already in normal form.  Machine-level
details that no claim depends on (file bytes, temp-upload unlinking,
`node_modules` pruning after extraction) are elided; every registry-visible
effect of the handlers is modelled.
-/

namespace MiniPaaS

/-! ## Path model -/

/-- One step of `path.resolve` normalisation over an absolute path held as a
component list: empty and `.` segments are dropped, `..` pops the last
component (never above the filesystem root), any other segment is appended. -/
def resolveStep (acc : List String) (c : String) : List String :=
  if c = "" || c = "." then acc
  else if c = ".." then acc.dropLast
  else acc ++ [c]

/-- Embeds `path.resolve(path.join(base, rel))` for an absolute, already-normal
`base`: fold the relative segments over the base. -/
def resolvePath (base : List String) (segs : List String) : List String :=
  segs.foldl resolveStep base

/-- Split a character list into segments at `/`, accumulating the current
segment in reverse. -/
def splitPathAux : List Char → List Char → List String
  | [], acc => [⟨acc.reverse⟩]
  | c :: cs, acc =>
    if c = '/' then ⟨acc.reverse⟩ :: splitPathAux cs []
    else splitPathAux cs (c :: acc)

/-- Split a zip entry name on `/` (POSIX separators, as produced by zips),
like `s.split('/')`. -/
def splitPath (s : String) : List String :=
  splitPathAux s.data []

/-! ## Name normalisation (deploy handler)

`const safeName = name.toLowerCase().replace(/[^a-z0-9-]/g, '-');`
-/

/-- Characters admitted by the `[a-z0-9-]` character class. -/
def isAllowedChar (c : Char) : Bool :=
  (('a' ≤ c && c ≤ 'z') || ('0' ≤ c && c ≤ '9') || c = '-')

/-- Per-character effect of `toLowerCase` followed by the global
`[^a-z0-9-]` → `-` replacement (the regex substitutes every matching
character separately). -/
def jsLowerReplace (c : Char) : Char :=
  if isAllowedChar c.toLower then c.toLower else '-'

/-- Embeds `name.toLowerCase().replace(/[^a-z0-9-]/g, '-')` from the deploy
handler. -/
def normalizeName (s : String) : String :=
  ⟨s.data.map jsLowerReplace⟩

/-- Modelled from the spec: "Normalize name: lowercase, replace runs of
non-`[a-z0-9-]` with `-`" — every maximal run of disallowed characters
becomes a single hyphen.  The Boolean flag records whether the previous
character belonged to a disallowed run.  Kept separate from
`normalizeName` (which embeds the source) so the two can be compared. -/
def collapseRuns : Bool → List Char → List Char
  | _, [] => []
  | inRun, c :: cs =>
    if isAllowedChar c then c :: collapseRuns false cs
    else if inRun then collapseRuns true cs
    else '-' :: collapseRuns true cs

/-- Modelled from the spec: run-collapsing normalisation of a requested
app name. -/
def specNormalizeName (s : String) : String :=
  ⟨collapseRuns false (s.data.map Char.toLower)⟩

/-! ## Data model

The registry document `data/apps.json` is a JSON array of app records; the
fields below are exactly the ones the modelled handlers read or write.
`none` stands for a JSON field that is absent or `null` (both falsy in the
source's truthiness tests). -/

/-- One element of an app's `versions` array. -/
structure AppVersion where
  versionId : String
  deployMethod : String
  gitUrl : Option String
  gitBranch : Option String
  gitCommit : Option String
  path : List String
  deriving Repr, DecidableEq

/-- One element of the registry array. -/
structure App where
  name : String
  port : Nat
  type : String
  path : List String
  status : String
  versions : List AppVersion
  currentVersion : String
  webhookSecret : Option String := none
  autoRestart : Option Bool := none
  deriving Repr, DecidableEq

/-- Persistent state touched by the deploy and delete handlers: the
registry array plus the set of existing app directories (as absolute
component paths), which `fs.existsSync` consults. -/
structure PaasState where
  registry : List App
  dirs : List (List String)
  deriving Repr, DecidableEq

/-- Error kinds surfaced by the deploy and delete handlers, one per
distinct response of the source. -/
inductive DeployError
  /-- 400 `Faltan datos: name` -/
  | invalidName
  /-- 400 `La aplicación ya existe` -/
  | appAlreadyExists
  /-- 500 `El ZIP contiene rutas no permitidas` (thrown in the zip loop) -/
  | unsafeArchivePath
  /-- 500 `Faltan datos: subir zip o proporcionar gitUrl` -/
  | noSource
  /-- 500 `No free ports` (thrown by `findAvailablePort`) -/
  | noFreePort
  /-- 404 `App no encontrada` (delete handler) -/
  | appMissing
  deriving Repr, DecidableEq

/-- The `START_PORT` constant from the configuration block. -/
def START_PORT : Nat := 5200

/-! ## Port allocator

```
const findAvailablePort = async startAt => { ... let port = startAt;
  while (!(await isPortFree(port))) { port++;
    if (port > 65000) throw new Error('No free ports'); }
  return port; };
```

The bind-and-close probe is abstracted as a predicate `free` on ports.
The loop is embedded with explicit fuel so that it computes; 65002
iterations always suffice because the port increases by one per iteration
and the loop throws as soon as the port passes 65000. -/

def findPortLoop (free : Nat → Bool) : Nat → Nat → Except DeployError Nat
  | 0, _ => .error .noFreePort
  | fuel + 1, port =>
    if free port then .ok port
    else if port + 1 > 65000 then .error .noFreePort
    else findPortLoop free fuel (port + 1)

/-- Embeds `findAvailablePort(startAt)` with the probe abstracted. -/
def findAvailablePort (free : Nat → Bool) (startAt : Nat) : Except DeployError Nat :=
  findPortLoop free 65002 startAt

/-! ## Archive extraction (zip branch of `POST /api/apps`)

```
const targetPath = path.join(appPath, entryPath);
const resolved = path.resolve(targetPath);
if (!(resolved === appPath || resolved.startsWith(appPath + path.sep))) {
    fs.unlinkSync(file.path);
    throw new Error('El ZIP contiene rutas no permitidas');
}
```

With paths as normal-form component lists, `resolved === appPath` or
`resolved.startsWith(appPath + path.sep)` is exactly: the components of
`appPath` are a prefix of the components of `resolved`. -/

/-- A zip entry: its stored name and whether it is a directory entry. -/
structure ZipEntry where
  entryName : String
  isDirectory : Bool := false
  deriving Repr, DecidableEq

/-- The resolved absolute path of a zip entry inside the destination. -/
def resolveEntry (appPath : List String) (e : ZipEntry) : List String :=
  resolvePath appPath (splitPath e.entryName)

/-- The zip-slip guard for one entry. -/
def entrySafe (appPath : List String) (e : ZipEntry) : Bool :=
  appPath.isPrefixOf (resolveEntry appPath e)

/-- The extraction loop: entries are written in order and the first unsafe
entry aborts the whole deploy with the unsafe-archive-path error.  The
file/directory writes themselves are observed through the entry list (see
`pathInZip`), so only the guard outcome is returned here. -/
def extractEntries (appPath : List String) (entries : List ZipEntry) : Except DeployError Unit :=
  match entries.find? (fun e => !entrySafe appPath e) with
  | some _ => .error .unsafeArchivePath
  | none => .ok ()

/-- Whether path `p` exists under the destination after extracting
`entries`: extraction creates every resolved entry path together with its
parent directories (`fs.mkdirSync(..., { recursive: true })`), so `p`
exists exactly when it is a prefix of some entry's resolved path. -/
def pathInZip (appPath : List String) (entries : List ZipEntry) (p : List String) : Bool :=
  entries.any (fun e => p.isPrefixOf (resolveEntry appPath e))

/-! ## Deploy pipeline (`POST /api/apps`, zip branch)

The handler's registry-visible behaviour, with the bind probe (`free`),
`Date.now()` (`now`) and the platform's `apps/` directory (`appsDir`,
assumed in normal form) as parameters.  On any failure inside the `try`
block the `catch` removes the freshly created `apps/<name>` directory and
the registry is never written, which the outcome's `state` reflects. -/

/-- Result of one deploy request: the persistent state afterwards and the
HTTP-level result (the registered app record on success). -/
structure DeployOutcome where
  state : PaasState
  result : Except DeployError App
  deriving Repr

/-- Embeds `Math.max(...apps.map(a => a.port))` over a non-empty registry. -/
def maxPort (apps : List App) : Nat :=
  (apps.map App.port).foldr max 0

/-- The value `lastPort + 1` where
`lastPort = apps.length > 0 ? Math.max(...apps.map(a => a.port)) : START_PORT - 1`. -/
def portStart (registry : List App) : Nat :=
  (if registry.isEmpty then START_PORT - 1 else maxPort registry) + 1

/-- The deploy handler for a zip upload. -/
def deployZip (appsDir : List String) (free : Nat → Bool) (now : Nat)
    (st : PaasState) (name : String) (entries : List ZipEntry) : DeployOutcome :=
  -- `if (!name) return 400`
  if name = "" then ⟨st, .error .invalidName⟩ else
  let safeName := normalizeName name
  let appPath := appsDir ++ [safeName]
  -- `if (fs.existsSync(appPath)) return 400 'La aplicación ya existe'`
  if appPath ∈ st.dirs then ⟨st, .error .appAlreadyExists⟩ else
  -- `fs.mkdirSync(appPath, { recursive: true })`
  let stMk : PaasState := { st with dirs := st.dirs ++ [appPath] }
  -- the catch block: `if (fs.existsSync(appPath)) fs.rmSync(appPath, ...)`
  let cleanup : PaasState := { stMk with dirs := stMk.dirs.erase appPath }
  match extractEntries appPath entries with
  | .error e => ⟨cleanup, .error e⟩
  | .ok _ =>
    -- `const isNode = fs.existsSync(path.join(appPath, 'package.json'))`
    let isNode := pathInZip appPath entries (appPath ++ ["package.json"])
    let ty := if isNode then "node" else "static"
    -- `const lastPort = apps.length > 0 ? Math.max(...apps.map(a => a.port)) : START_PORT - 1`
    match findAvailablePort free (portStart st.registry) with
    | .error e => ⟨cleanup, .error e⟩
    | .ok port =>
      let versionId := "v" ++ toString now
      let ver : AppVersion :=
        { versionId := versionId, deployMethod := "zip",
          gitUrl := none, gitBranch := none, gitCommit := none, path := appPath }
      -- the record is saved with status 'stopped' and `startAppProcess`
      -- immediately rewrites it to 'running' (the directory exists)
      let newApp : App :=
        { name := safeName, port := port, type := ty, path := appPath,
          status := "running", versions := [ver], currentVersion := versionId }
      ⟨{ registry := stMk.registry ++ [newApp], dirs := stMk.dirs }, .ok newApp⟩

/-! ## Delete handler (`DELETE /api/apps/:name`) -/

/-- The delete handler: find the first record with the given name,
stop the process, remove its directory, splice it out, save. -/
def deleteApp (st : PaasState) (name : String) : PaasState × Except DeployError Unit :=
  match st.registry.find? (fun a => a.name == name) with
  | none => (st, .error .appMissing)
  | some a =>
    ({ registry := st.registry.eraseP (fun x => x.name == name),
       dirs := st.dirs.erase a.path }, .ok ())

/-! ## Webhook redeploy (`POST /api/apps/:name/webhook`)

The handler after the registry lookup, acting on the single record found.
`hmac` abstracts `crypto.createHmac('sha256', secret).update(body).digest('hex')`
(hex HMAC-SHA256 keyed by the secret), `newCommit` abstracts the
`git rev-parse --short HEAD` result after the pull, and `now` is
`Date.now()`.  The Buffer length check plus `crypto.timingSafeEqual`
together decide exactly string equality of the header and the computed
digest (the constant-time aspect is not a functional property).  A missing
`X-Hub-Signature-256` header, an empty header (falsy in
`if (!signature || !req.rawBody)`) and a missing raw body all take the
401 `Missing webhook signature` branch; a present-but-wrong header takes
the 401 `Invalid webhook signature` branch.  Every rejection happens
before any mutation, so the outcome's `app` equals the input there. -/

/-- Response kinds of the webhook endpoint, one per distinct response. -/
inductive WebhookError
  /-- 400 `App no tiene repositorio Git configurado` -/
  | gitNotConfigured
  /-- 403 `Webhook no configurado. ...` -/
  | webhookNotConfigured
  /-- 401 `Missing webhook signature` -/
  | missingSignature
  /-- 401 `Invalid webhook signature` -/
  | invalidSignature
  deriving Repr, DecidableEq

/-- HTTP status of each webhook rejection in the source. -/
def webhookStatus : WebhookError → Nat
  | .gitNotConfigured => 400
  | .webhookNotConfigured => 403
  | .missingSignature => 401
  | .invalidSignature => 401

/-- State of the app record after a webhook request, plus the response. -/
structure WebhookOutcome where
  app : App
  response : Except WebhookError Unit
  deriving Repr

/-- The webhook handler on the record found for `:name`. -/
def webhookForApp (hmac : String → String → String) (now : Nat)
    (newCommit : Option String) (a : App)
    (signature : Option String) (rawBody : Option String) : WebhookOutcome :=
  -- `const currentVersion = (appData.versions || []).find(v => v.versionId === appData.currentVersion)`
  match a.versions.find? (fun v => v.versionId == a.currentVersion) with
  | none => ⟨a, .error .gitNotConfigured⟩
  | some cv =>
    match cv.gitUrl with
    | none => ⟨a, .error .gitNotConfigured⟩
    | some gurl =>
      match a.webhookSecret with
      | none => ⟨a, .error .webhookNotConfigured⟩
      | some secret =>
        match signature, rawBody with
        | none, _ => ⟨a, .error .missingSignature⟩
        | some _, none => ⟨a, .error .missingSignature⟩
        | some sig, some body =>
          if sig = "" then ⟨a, .error .missingSignature⟩
          else
            let digest := "sha256=" ++ hmac secret body
            if sig ≠ digest then ⟨a, .error .invalidSignature⟩
            else
              -- accepted: stop, pull, reinstall, append version, save, start
              let versionId := "v" ++ toString now
              let ver : AppVersion :=
                { versionId := versionId, deployMethod := "webhook",
                  gitUrl := some gurl, gitBranch := some (cv.gitBranch.getD "main"),
                  gitCommit := newCommit, path := a.path }
              let redeployed : App :=
                { a with versions := a.versions ++ [ver],
                         currentVersion := versionId, status := "running" }
              ⟨redeployed, .ok ()⟩

/-! ## Rollback (`POST /api/apps/:name/rollback`)

The handler after the registry lookup, acting on the record found.  The
filesystem copy of the snapshot over the working directory (which only
runs when the recorded paths differ) has no registry-visible effect beyond
the fields updated below. -/

/-- Response kinds of the rollback endpoint. -/
inductive RollbackError
  /-- 400 `versionId requerido` -/
  | versionIdRequired
  /-- 404 `Versión no encontrada` -/
  | versionMissing
  /-- 400 `Ya estás en esta versión` -/
  | alreadyAtVersion
  deriving Repr, DecidableEq

/-- The rollback handler on the record found for `:name`. -/
def rollbackApp (a : App) (versionId : String) : Except RollbackError App :=
  if versionId = "" then .error .versionIdRequired
  else
    match a.versions.find? (fun v => v.versionId == versionId) with
    | none => .error .versionMissing
    | some version =>
      -- `if (version.path === appData.path && versionId === appData.currentVersion)`
      if version.path = a.path ∧ versionId = a.currentVersion then
        .error .alreadyAtVersion
      else
        -- stop; copy snapshot over workdir when paths differ; save; restart
        .ok { a with currentVersion := versionId, status := "running" }

/-- All recorded versions of `a` point at the app's own working directory.
Every version the pipeline writes (initial deploy and webhook redeploy)
records `path: appPath`, so this holds for every app the system
produces. -/
def VersionPathsInv (a : App) : Prop :=
  ∀ v ∈ a.versions, v.path = a.path ∧ v.versionId ≠ ""

/-! ## Process supervisor: start endpoint (`POST /api/apps/:name/start`)

In-memory supervisor state: the registry plus the keys of the
`runningProcesses` and `logStreams` maps.  `dirExists` abstracts
`fs.existsSync` on working directories.  When the working directory is
gone, `startAppProcess` logs an error, marks the app `stopped`, closes the
log stream and returns — and the endpoint still answers
`{ status: 'ok', message: '<name> iniciada' }`. -/

/-- Supervisor-visible state. -/
structure SupervisorState where
  apps : List App
  running : List String
  logsOpen : List String
  deriving Repr, DecidableEq

/-- Rejections of the start endpoint. -/
inductive StartError
  /-- 404 `App no encontrada` -/
  | appMissing
  /-- 400 `App ya está en ejecución` -/
  | alreadyRunning
  deriving Repr, DecidableEq

/-- Embeds `updateAppStatus`: set the status of the first record with the given
name (via `findIndex`). -/
def updateFirstStatus : List App → String → String → List App
  | [], _, _ => []
  | a :: rest, n, s =>
    if a.name = n then { a with status := s } :: rest
    else a :: updateFirstStatus rest n s

/-- Embeds `startAppProcess(appData)`: close any previous log stream, open a
fresh one, then bail out (status `stopped`, stream closed again) when the
working directory is missing, else spawn the child, register it and
publish `running`. -/
def startAppProcess (dirExists : List String → Bool)
    (st : SupervisorState) (a : App) : SupervisorState :=
  let st1 : SupervisorState :=
    { st with logsOpen := st.logsOpen.erase a.name ++ [a.name] }
  if dirExists a.path then
    { st1 with running := st1.running ++ [a.name],
               apps := updateFirstStatus st1.apps a.name "running" }
  else
    { st1 with logsOpen := st1.logsOpen.erase a.name,
               apps := updateFirstStatus st1.apps a.name "stopped" }

/-- The start endpoint. -/
def startEndpoint (dirExists : List String → Bool)
    (st : SupervisorState) (name : String) :
    SupervisorState × Except StartError Unit :=
  match st.apps.find? (fun a => a.name == name) with
  | none => (st, .error .appMissing)
  | some a =>
    if st.running.contains name then (st, .error .alreadyRunning)
    else (startAppProcess dirExists st a, .ok ())

/-! ## Crash-restart policy (`child.on('close', ...)` and `stopAppProcess`)

`restartCounts[name]` is `{ count, firstRestart }`; `AUTO_RESTART_MAX`
and `AUTO_RESTART_WINDOW` (seconds) are configuration.  `handleClose`
embeds the body of the close handler that runs after the child exits:
`code` is the exit code (`none` for a signal-terminated child, as after a
manual stop), `autoRestart` the record's flag (`none` when the field is
absent, and `app.autoRestart !== false` treats that as enabled). -/

/-- The restart counter kept per app name. -/
structure RestartCount where
  count : Nat
  firstRestart : Nat
  deriving Repr, DecidableEq

/-- What the close handler does about the exit. -/
inductive CrashAction
  /-- `setTimeout(() => startAppProcess(app, true), 3000)` scheduled -/
  | restarted
  /-- `io.emit('crash:<name>', ...)`: crashed status event, no retry -/
  | crashedEvent
  /-- none of the auto-restart logic ran -/
  | noAction
  deriving Repr, DecidableEq

/-- The auto-restart portion of the `close` handler. -/
def handleClose (maxRestarts winSecs : Nat) (now : Nat) (code : Option Int)
    (autoRestart : Option Bool) (rc : Option RestartCount) :
    Option RestartCount × CrashAction :=
  -- `if (code !== 0 && code !== null)` and `app.autoRestart !== false`
  if code = some 0 ∨ code = none ∨ autoRestart = some false then (rc, .noAction)
  else
    -- `if (!restartCounts[name]) restartCounts[name] = { count: 0, firstRestart: now }`
    let rc0 := rc.getD ⟨0, now⟩
    -- `if (now - restartCounts[name].firstRestart > AUTO_RESTART_WINDOW * 1000) reset`
    let rc1 := if now - rc0.firstRestart > winSecs * 1000 then (⟨0, now⟩ : RestartCount) else rc0
    if rc1.count < maxRestarts then
      (some ⟨rc1.count + 1, rc1.firstRestart⟩, .restarted)
    else
      (some rc1, .crashedEvent)

/-- Fold `handleClose` over a sequence of timestamped crashes (non-zero
exits, `code = 1`) of an app whose `autoRestart` field is absent. -/
def processCrashes (maxRestarts winSecs : Nat) :
    List Nat → Option RestartCount → Option RestartCount × List CrashAction
  | [], rc => (rc, [])
  | t :: ts, rc =>
    let step := handleClose maxRestarts winSecs t (some 1) none rc
    let rest := processCrashes maxRestarts winSecs ts step.1
    (rest.1, step.2 :: rest.2)

/-- The 30-second stability timer armed by `startAppProcess`:
`if (runningProcesses[name]) delete restartCounts[name]`. -/
def stabilityTimerFire (stillRunning : Bool) (rc : Option RestartCount) :
    Option RestartCount :=
  if stillRunning then none else rc

/-- The individual effects of `stopAppProcess`, in source order. -/
inductive StopStep
  /-- `delete restartCounts[name]` -/
  | clearRestartCount
  /-- `runningProcesses[name].kill()` -/
  | killSignal
  /-- `delete runningProcesses[name]` -/
  | removeFromMap
  /-- `closeLogStream(name)` -/
  | closeLog
  /-- `updateAppStatus(name, 'stopped')` -/
  | markStopped
  deriving Repr, DecidableEq

/-- Embeds `stopAppProcess(name, markStopped = true)`: a no-op unless a child is
registered, otherwise the recorded steps in the order the source performs
them. -/
def stopAppProcess (childRunning : Bool) : List StopStep :=
  if childRunning then
    [.clearRestartCount, .killSignal, .removeFromMap, .closeLog, .markStopped]
  else []

/-- Registry well-formedness: app names are pairwise distinct, assigned
ports are pairwise distinct, and every registered app's recorded working
directory is `apps/<name>` and exists on disk.  The deploy handler
guarantees the name guard through the directory-existence check, so the
directory component is part of the inductive invariant. -/
def RegistryInv (appsDir : List String) (st : PaasState) : Prop :=
  (st.registry.map App.name).Nodup ∧
  (st.registry.map App.port).Nodup ∧
  ∀ a ∈ st.registry, a.path = appsDir ++ [a.name] ∧ a.path ∈ st.dirs

/-- A sample git-deployed version record used to instantiate theorems on
concrete inputs. -/
def sampleGitVersion : AppVersion :=
  { versionId := "v1", deployMethod := "git", gitUrl := some "u",
    gitBranch := some "main", gitCommit := none, path := ["apps", "x"] }

/-- A sample git-deployed app record used to instantiate theorems on
concrete inputs. -/
def sampleGitApp : App :=
  { name := "x", port := 5200, type := "node", path := ["apps", "x"],
    status := "running", versions := [sampleGitVersion],
    currentVersion := "v1", webhookSecret := some "abc" }

/-! ## Supporting lemmas -/

/-- A successful port search returns a free port, no earlier than the
start, with every port between the start and it busy. -/
theorem findPortLoop_ok_spec (free : Nat → Bool) :
    ∀ (fuel p q : Nat), findPortLoop free fuel p = .ok q →
      free q = true ∧ p ≤ q ∧ ∀ r, p ≤ r → r < q → free r = false := by
  intro fuel
  induction fuel with
  | zero => intro p q h; simp [findPortLoop] at h
  | succ n ih =>
    intro p q h
    simp only [findPortLoop] at h
    by_cases hf : free p = true
    · simp [hf] at h
      subst h
      exact ⟨hf, le_refl _, fun r h1 h2 => absurd (lt_of_le_of_lt h1 h2) (lt_irrefl _)⟩
    · simp [hf] at h
      by_cases hp : p + 1 > 65000
      · simp [hp] at h
      · simp [hp] at h
        obtain ⟨h1, h2, h3⟩ := ih (p + 1) q h
        refine ⟨h1, by omega, fun r hr1 hr2 => ?_⟩
        rcases Nat.eq_or_lt_of_le hr1 with heq | hlt
        · simpa [← heq] using hf
        · exact h3 r hlt hr2

/-- The port search fails with the no-free-port error when every port from
the start through 65000 is busy. -/
theorem findPortLoop_none_spec (free : Nat → Bool) :
    ∀ (fuel p : Nat), 65001 ≤ fuel + p → p ≤ 65000 →
      (∀ r, p ≤ r → r ≤ 65000 → free r = false) →
      findPortLoop free fuel p = .error .noFreePort := by
  intro fuel
  induction fuel with
  | zero => intro p hfuel hp _; omega
  | succ n ih =>
    intro p hfuel hp hbusy
    have hfp : free p = false := hbusy p (le_refl _) hp
    simp only [findPortLoop, hfp]
    by_cases hlast : p + 1 > 65000
    · simp [hlast]
    · simp only [hlast, if_false, Bool.false_eq_true, if_neg, ite_false]
      exact ih (p + 1) (by omega) (by omega)
        (fun r h1 h2 => hbusy r (by omega) h2)

/-- Every registered port is bounded by `maxPort`. -/
theorem le_maxPort {apps : List App} {a : App} (h : a ∈ apps) :
    a.port ≤ maxPort apps := by
  induction apps with
  | nil => cases h
  | cons b rest ih =>
    rcases List.mem_cons.mp h with rfl | hm
    · simp only [maxPort, List.map_cons, List.foldr_cons]
      exact le_sup_left
    · simp only [maxPort, List.map_cons, List.foldr_cons]
      exact le_trans (ih hm) le_sup_right

/-- Any failing deploy leaves the persistent state exactly as it was: the
early rejections return before touching anything, and the `catch` block
removes the directory created at the start of the `try`. -/
theorem deployZip_error_state (appsDir : List String) (free : Nat → Bool)
    (now : Nat) (st : PaasState) (name : String) (entries : List ZipEntry)
    (err : DeployError)
    (h : (deployZip appsDir free now st name entries).result = .error err) :
    (deployZip appsDir free now st name entries).state = st := by
  by_cases h1 : name = ""
  · simp [deployZip, h1]
  · by_cases h2 : (appsDir ++ [normalizeName name]) ∈ st.dirs
    · simp [deployZip, h1, h2]
    · have hclean : (st.dirs ++ [appsDir ++ [normalizeName name]]).erase
          (appsDir ++ [normalizeName name]) = st.dirs := by
        rw [List.erase_append_right _ h2, List.erase_cons_head]
        simp
    
      cases hext : extractEntries (appsDir ++ [normalizeName name]) entries with
      | error e => simp [deployZip, h1, h2, hext, hclean]
      | ok u =>
        cases hport : findAvailablePort free (portStart st.registry) with
        | error e => simp [deployZip, h1, h2, hext, hport, hclean]
        | ok port => simp [deployZip, h1, h2, hext, hport] at h

/-- The app record built by a successful zip deploy. -/
def deployedApp (appsDir : List String) (now : Nat) (name : String)
    (entries : List ZipEntry) (port : Nat) : App :=
  { name := normalizeName name, port := port,
    type := if pathInZip (appsDir ++ [normalizeName name]) entries
        (appsDir ++ [normalizeName name] ++ ["package.json"]) then "node" else "static",
    path := appsDir ++ [normalizeName name], status := "running",
    versions := [{ versionId := "v" ++ toString now, deployMethod := "zip",
                   gitUrl := none, gitBranch := none, gitCommit := none,
                   path := appsDir ++ [normalizeName name] }],
    currentVersion := "v" ++ toString now }

/-- A zip deploy whose guards all pass produces exactly the
`deployedApp` record and registers it. -/
theorem deployZip_ok_eq (appsDir : List String) (free : Nat → Bool)
    (now : Nat) (st : PaasState) (name : String) (entries : List ZipEntry)
    (port : Nat)
    (h1 : name ≠ "")
    (h2 : (appsDir ++ [normalizeName name]) ∉ st.dirs)
    (hext : extractEntries (appsDir ++ [normalizeName name]) entries = .ok ())
    (hport : findAvailablePort free (portStart st.registry) = .ok port) :
    deployZip appsDir free now st name entries =
      ⟨{ registry := st.registry ++ [deployedApp appsDir now name entries port],
         dirs := st.dirs ++ [appsDir ++ [normalizeName name]] },
       .ok (deployedApp appsDir now name entries port)⟩ := by
  simp [deployZip, h1, h2, hext, hport, deployedApp]

/-- Full characterisation of a successful zip deploy: which guards must
have passed, which app record is produced and what the state becomes. -/
theorem deployZip_ok_spec (appsDir : List String) (free : Nat → Bool)
    (now : Nat) (st : PaasState) (name : String) (entries : List ZipEntry)
    (app : App)
    (h : (deployZip appsDir free now st name entries).result = .ok app) :
    name ≠ "" ∧
    (appsDir ++ [normalizeName name]) ∉ st.dirs ∧
    extractEntries (appsDir ++ [normalizeName name]) entries = .ok () ∧
    findAvailablePort free (portStart st.registry) = .ok app.port ∧
    app = deployedApp appsDir now name entries app.port ∧
    (deployZip appsDir free now st name entries).state =
      { registry := st.registry ++ [app],
        dirs := st.dirs ++ [appsDir ++ [normalizeName name]] } := by
  by_cases h1 : name = ""
  · simp [deployZip, h1] at h
  · by_cases h2 : (appsDir ++ [normalizeName name]) ∈ st.dirs
    · simp [deployZip, h1, h2] at h
    · cases hext : extractEntries (appsDir ++ [normalizeName name]) entries with
      | error e => simp [deployZip, h1, h2, hext] at h
      | ok u =>
        cases u
        cases hport : findAvailablePort free (portStart st.registry) with
        | error e => simp [deployZip, h1, h2, hext, hport] at h
        | ok port =>
          have heq := deployZip_ok_eq appsDir free now st name entries port h1 h2 hext hport
          rw [heq] at h
          simp only [Except.ok.injEq] at h
          subst h
          refine ⟨h1, h2, rfl, by simp [deployedApp], by simp [deployedApp], ?_⟩
          rw [heq]

/-! ## Claims -/

/-- C1: for every archive deployed via the pipeline and every entry of the
archive, if the entry's resolved absolute path neither equals the
destination `apps/<name>` nor extends it past the path separator (in the
component model: the destination is not a prefix of the resolved path),
the deploy fails with the unsafe-archive-path error, the registry is left
without any entry for the app, and the `apps/<name>` directory does not
survive (the `catch` block removes it). -/
theorem C1_unsafe_entry_aborts_deploy
    (appsDir : List String) (free : Nat → Bool) (now : Nat) (st : PaasState)
    (name : String) (entries : List ZipEntry) (e : ZipEntry)
    (hname : name ≠ "")
    (hfresh : (appsDir ++ [normalizeName name]) ∉ st.dirs)
    (he : e ∈ entries)
    (hescape : ¬ (appsDir ++ [normalizeName name]) <+:
        resolveEntry (appsDir ++ [normalizeName name]) e) :
    (deployZip appsDir free now st name entries).result = .error .unsafeArchivePath ∧
    (deployZip appsDir free now st name entries).state.registry = st.registry ∧
    (deployZip appsDir free now st name entries).state.dirs = st.dirs ∧
    (appsDir ++ [normalizeName name]) ∉
      (deployZip appsDir free now st name entries).state.dirs := by
  have hent : (!entrySafe (appsDir ++ [normalizeName name]) e) = true := by
    simp only [entrySafe, Bool.not_eq_true']
    rw [Bool.eq_false_iff]
    intro hcontra
    exact hescape ( List.isPrefixOf_iff_prefix.mp hcontra)
  have hfind : (entries.find? (fun x => !entrySafe (appsDir ++ [normalizeName name]) x)).isSome := by
    exact List.find?_isSome.mpr ⟨e, he, hent⟩
  obtain ⟨w, hw⟩ := Option.isSome_iff_exists.mp hfind
  have hext : extractEntries (appsDir ++ [normalizeName name]) entries =
      .error .unsafeArchivePath := by
    unfold extractEntries
    rw [hw]
  have hres : (deployZip appsDir free now st name entries).result =
      .error .unsafeArchivePath := by
    simp [deployZip, hname, hfresh, hext]
  have hst := deployZip_error_state appsDir free now st name entries _ hres
  exact ⟨hres, by rw [hst], by rw [hst], by rw [hst]; exact hfresh⟩

/-- Witness for C1 at the spec's zip-slip scenario: an archive whose only
entry is `../../../../etc/evil`, deployed as `site` into an empty
platform. -/
theorem C1_witness :
    (deployZip ["apps"] (fun _ => true) 7 ⟨[], []⟩ "site"
        [{ entryName := "../../../../etc/evil" }]).result = .error .unsafeArchivePath ∧
    (deployZip ["apps"] (fun _ => true) 7 ⟨[], []⟩ "site"
        [{ entryName := "../../../../etc/evil" }]).state.registry = [] ∧
    (deployZip ["apps"] (fun _ => true) 7 ⟨[], []⟩ "site"
        [{ entryName := "../../../../etc/evil" }]).state.dirs = [] ∧
    ["apps", "site"] ∉ (deployZip ["apps"] (fun _ => true) 7 ⟨[], []⟩ "site"
        [{ entryName := "../../../../etc/evil" }]).state.dirs := by
  have hn : normalizeName "site" = "site" := by decide
  have h := C1_unsafe_entry_aborts_deploy ["apps"] (fun _ => true) 7 ⟨[], []⟩ "site"
    [{ entryName := "../../../../etc/evil" }] { entryName := "../../../../etc/evil" }
    (by decide) (by simp) (by simp) (by decide)
  simpa [hn] using h

/-- The computed digest string is never empty. -/
theorem sha256_digest_ne_empty (x : String) : "sha256=" ++ x ≠ "" := by
  intro h
  have hlen := congrArg String.length h
  rw [String.length_append] at hlen
  have h7 : ("sha256=" : String).length = 7 := rfl
  have h0 : ("" : String).length = 0 := rfl
  rw [h7, h0] at hlen
  omega

set_option maxRecDepth 8192 in
/-- C2: for an app whose current version has a git URL and whose webhook
secret is set, a webhook request is accepted exactly when its
`X-Hub-Signature-256` header equals `sha256=` followed by the hex
HMAC-SHA256 of the raw body under the secret; a missing (or empty, hence
falsy) header is rejected 401 before any mutation, a present-but-wrong
header is rejected 401 (`Invalid webhook signature`) before any mutation,
every rejection leaves the app record unchanged (no version appended,
`currentVersion` and `status` untouched), and when the secret is not set
the request is rejected with the not-configured error. -/
theorem C2_webhook_signature_verification
    (hmac : String → String → String) (now : Nat) (newCommit : Option String)
    (a : App) (cv : AppVersion) (gurl secret : String)
    (hcv : a.versions.find? (fun v => v.versionId == a.currentVersion) = some cv)
    (hgit : cv.gitUrl = some gurl)
    (hsecret : a.webhookSecret = some secret) :
    (∀ sig body,
      (webhookForApp hmac now newCommit a (some sig) (some body)).response = .ok () ↔
        sig = "sha256=" ++ hmac secret body) ∧
    (∀ sig body err,
      (webhookForApp hmac now newCommit a sig body).response = .error err →
        (webhookForApp hmac now newCommit a sig body).app = a) ∧
    (∀ body, (webhookForApp hmac now newCommit a none body).response =
        .error .missingSignature ∧ webhookStatus .missingSignature = 401) ∧
    (∀ sig body, sig ≠ "" → sig ≠ "sha256=" ++ hmac secret body →
      (webhookForApp hmac now newCommit a (some sig) (some body)).response =
        .error .invalidSignature ∧ webhookStatus .invalidSignature = 401) ∧
    (∀ (b : App) sig body,
      b.versions.find? (fun v => v.versionId == b.currentVersion) = some cv →
      b.webhookSecret = none →
      (webhookForApp hmac now newCommit b sig body).response =
        .error .webhookNotConfigured ∧
      (webhookForApp hmac now newCommit b sig body).app = b) := by
  refine ⟨?_, ?_, ?_, ?_, ?_⟩
  · intro sig body
    by_cases hs0 : sig = ""
    · subst hs0
      simp [webhookForApp, hcv, hgit, hsecret,
        Ne.symm (sha256_digest_ne_empty (hmac secret body))]
    · by_cases hsd : sig = "sha256=" ++ hmac secret body
      · simp [webhookForApp, hcv, hgit, hsecret, hs0, hsd,
          sha256_digest_ne_empty (hmac secret body)]
      · simp [webhookForApp, hcv, hgit, hsecret, hs0, hsd]
  · intro sig body err h
    cases sig with
    | none => simp [webhookForApp, hcv, hgit, hsecret]
    | some s =>
      cases body with
      | none => simp [webhookForApp, hcv, hgit, hsecret]
      | some b =>
        by_cases hs0 : s = ""
        · simp [webhookForApp, hcv, hgit, hsecret, hs0]
        · by_cases hsd : s = "sha256=" ++ hmac secret b
          · simp [webhookForApp, hcv, hgit, hsecret, hs0, hsd,
              sha256_digest_ne_empty (hmac secret b)] at h
          · simp [webhookForApp, hcv, hgit, hsecret, hs0, hsd]
  · intro body
    simp [webhookForApp, hcv, hgit, hsecret, webhookStatus]
  · intro sig body hs0 hsd
    simp [webhookForApp, hcv, hgit, hsecret, hs0, hsd, webhookStatus]
  · intro b sig body hfind hsec
    cases sig with
    | none => simp [webhookForApp, hfind, hgit, hsec]
    | some s =>
      cases body with
      | none => simp [webhookForApp, hfind, hgit, hsec]
      | some bd => simp [webhookForApp, hfind, hgit, hsec]

/-- Witness for C2: with secret `"abc"` and the stand-in HMAC
`hmac s b = s ++ b`, the correctly signed request is accepted, the
wrongly signed request is rejected 401 with `Invalid webhook signature`
and leaves the record untouched, and the unsigned request is rejected
with the missing-signature 401. -/
theorem C2_witness :
    (webhookForApp (fun s b => s ++ b) 9 none sampleGitApp
        (some "sha256=abchello") (some "hello")).response = .ok () ∧
    (webhookForApp (fun s b => s ++ b) 9 none sampleGitApp
        (some "sha256=zzz") (some "hello")).response = .error .invalidSignature ∧
    (webhookForApp (fun s b => s ++ b) 9 none sampleGitApp
        (some "sha256=zzz") (some "hello")).app = sampleGitApp ∧
    (webhookForApp (fun s b => s ++ b) 9 none sampleGitApp
        none (some "hello")).response = .error .missingSignature := by
  have h := C2_webhook_signature_verification (fun s b => s ++ b) 9 none
    sampleGitApp sampleGitVersion "u" "abc" (by decide) rfl rfl
  refine ⟨(h.1 "sha256=abchello" "hello").mpr (by decide), ?_, ?_, ?_⟩
  · exact (h.2.2.2.1 "sha256=zzz" "hello" (by decide) (by decide)).1
  · exact h.2.1 (some "sha256=zzz") (some "hello") .invalidSignature
      (h.2.2.2.1 "sha256=zzz" "hello" (by decide) (by decide)).1
  · exact (h.2.2.1 "hello").1

/-- Folding the close handler over crashes that all fall inside the window
anchored at `t0`: starting with `c` attempts used, the next `maxR - c`
crashes are restarted and every further crash only emits the crashed
event, while the window anchor never moves. -/
theorem processCrashes_in_window (maxR winS t0 : Nat) :
    ∀ (ts : List Nat) (c : Nat),
      (∀ t ∈ ts, t0 ≤ t ∧ t - t0 ≤ winS * 1000) →
      (processCrashes maxR winS ts (some ⟨c, t0⟩)).2 =
        List.replicate (min ts.length (maxR - c)) .restarted ++
          List.replicate (ts.length - (maxR - c)) .crashedEvent := by
  intro ts
  induction ts with
  | nil => intro c _; simp [processCrashes]
  | cons t rest ih =>
    intro c hw
    obtain ⟨ht0, htw⟩ := hw t (List.mem_cons_self t rest)
    have hwrest : ∀ t ∈ rest, t0 ≤ t ∧ t - t0 ≤ winS * 1000 :=
      fun x hx => hw x (List.mem_cons_of_mem t hx)
    have hnotreset : ¬ (t - t0 > winS * 1000) := by omega
    by_cases hc : c < maxR
    · have hstep : handleClose maxR winS t (some 1) none (some ⟨c, t0⟩) =
          (some ⟨c + 1, t0⟩, .restarted) := by
        simp [handleClose, hnotreset, hc]
      simp only [processCrashes, hstep]
      rw [ih (c + 1) hwrest]
      have hmin : min (rest.length + 1) (maxR - c) = min rest.length (maxR - (c + 1)) + 1 := by
        omega
      have hsub : rest.length + 1 - (maxR - c) = rest.length - (maxR - (c + 1)) := by
        omega
      simp only [List.length_cons, hmin, hsub, List.replicate_succ, List.cons_append]
    · have hstep : handleClose maxR winS t (some 1) none (some ⟨c, t0⟩) =
          (some ⟨c, t0⟩, .crashedEvent) := by
        simp [handleClose, hnotreset, hc]
      simp only [processCrashes, hstep]
      rw [ih c hwrest]
      have hmc : maxR - c = 0 := by omega
      simp [hmc, List.replicate_succ]

/-- C3: for an app with auto-restart enabled (flag absent, hence not
`false`) the close handler performs at most `AUTO_RESTART_MAX` restarts
within one window: a crash sequence anchored at `t0` and inside the
window produces exactly `min n AUTO_RESTART_MAX` restarts followed only
by crashed-status events (so the `(MAX+1)`-th in-window crash is not
restarted and emits the crashed event); a crash arriving after the window
has elapsed resets the counter (restart with a fresh anchor); the
30-second stability timer clears the counter of a still-running app;
`stopAppProcess` clears the restart counter as its first step, before the
kill signal; and a signal-terminated exit (`code === null`, as produced by
a manual stop) never touches the counter nor restarts. -/
theorem C3_auto_restart_policy (maxR winS : Nat) :
    (∀ (t0 : Nat) (ts : List Nat),
      (∀ t ∈ ts, t0 ≤ t ∧ t - t0 ≤ winS * 1000) →
      (processCrashes maxR winS (t0 :: ts) none).2 =
        List.replicate (min (ts.length + 1) maxR) .restarted ++
          List.replicate ((ts.length + 1) - maxR) .crashedEvent) ∧
    (∀ (now : Nat) (rc : RestartCount), 1 ≤ maxR →
      winS * 1000 < now - rc.firstRestart →
      handleClose maxR winS now (some 1) none (some rc) =
        (some ⟨1, now⟩, .restarted)) ∧
    (∀ rc, stabilityTimerFire true rc = none) ∧
    (stopAppProcess true =
      [.clearRestartCount, .killSignal, .removeFromMap, .closeLog, .markStopped] ∧
     (stopAppProcess true).take 2 = [.clearRestartCount, .killSignal]) ∧
    (∀ (now : Nat) (ar : Option Bool) (rc : Option RestartCount),
      handleClose maxR winS now none ar rc = (rc, .noAction)) := by
  refine ⟨?_, ?_, ?_, ⟨rfl, rfl⟩, ?_⟩
  · intro t0 ts hw
    by_cases hmax : 1 ≤ maxR
    · have hstep : handleClose maxR winS t0 (some 1) none none =
          (some ⟨1, t0⟩, .restarted) := by
        simp [handleClose]
        omega
      simp only [processCrashes, hstep]
      rw [processCrashes_in_window maxR winS t0 ts 1 hw]
      have hmin : min (ts.length + 1) maxR = min ts.length (maxR - 1) + 1 := by omega
      have hsub : ts.length + 1 - maxR = ts.length - (maxR - 1) := by omega
      simp only [hmin, hsub, List.replicate_succ, List.cons_append]
    · have hmax0 : maxR = 0 := by omega
      subst hmax0
      have hstep : handleClose 0 winS t0 (some 1) none none =
          (some ⟨0, t0⟩, .crashedEvent) := by
        simp [handleClose]
      simp only [processCrashes, hstep]
      rw [processCrashes_in_window 0 winS t0 ts 0 hw]
      simp [List.replicate_succ]
  · intro now rc hmax hwin
    simp [handleClose, if_pos hwin]
    omega
  · intro rc
    simp [stabilityTimerFire]
  · intro now ar rc
    simp [handleClose]

/-- Witness for C3 with the default configuration
`AUTO_RESTART_MAX = 3`, `AUTO_RESTART_WINDOW = 300`: four in-window
crashes yield exactly three restarts then a crashed event, a crash after
the window restarts with a fresh anchor, the stability timer clears the
counter, and a manual-stop exit is untouched. -/
theorem C3_witness :
    (processCrashes 3 300 [1000, 2000, 3000, 4000] none).2 =
      [.restarted, .restarted, .restarted, .crashedEvent] ∧
    handleClose 3 300 500000 (some 1) none (some ⟨3, 1000⟩) =
      (some ⟨1, 500000⟩, .restarted) ∧
    stabilityTimerFire true (some ⟨2, 1000⟩) = none ∧
    handleClose 3 300 9000 none none (some ⟨2, 1000⟩) =
      (some ⟨2, 1000⟩, .noAction) := by
  have h := C3_auto_restart_policy 3 300
  refine ⟨?_, ?_, h.2.2.1 (some ⟨2, 1000⟩), h.2.2.2.2 9000 none (some ⟨2, 1000⟩)⟩
  · have ha := h.1 1000 [2000, 3000, 4000] (by
      intro t ht
      simp at ht
      rcases ht with rfl | rfl | rfl <;> omega)
    simpa using ha
  · exact h.2.1 500000 ⟨3, 1000⟩ (by omega) (by decide)

/-- Version ids minted by the pipeline (`` `v${Date.now()}` ``) are never
empty. -/
theorem versionId_ne_empty (n : Nat) : "v" ++ toString n ≠ "" := by
  intro h
  have hlen := congrArg String.length h
  rw [String.length_append] at hlen
  have h1 : ("v" : String).length = 1 := rfl
  have h0 : ("" : String).length = 0 := rfl
  rw [h1, h0] at hlen
  omega

/-- C4: rolling back to the version that is already `currentVersion` is a
no-op answered with `AlreadyAtVersion`, and `rollback(v)` immediately
followed by `rollback(v)` yields `AlreadyAtVersion` on the second call
with the record unchanged by it — for every app satisfying
`VersionPathsInv`, the invariant that every recorded version points at
the app's working directory with a non-empty id; the remaining conjuncts
show the pipeline establishes and preserves that invariant (archive
deploy, webhook redeploy and rollback), so it holds of every app the
system produces. -/
theorem C4_rollback_already_at_version :
    (∀ (a : App) (v : AppVersion), VersionPathsInv a → v ∈ a.versions →
      v.versionId = a.currentVersion →
      rollbackApp a v.versionId = .error .alreadyAtVersion) ∧
    (∀ (a : App) (vid : String) (a' : App), VersionPathsInv a →
      rollbackApp a vid = .ok a' →
      rollbackApp a' vid = .error .alreadyAtVersion ∧
      a'.versions = a.versions ∧ a'.path = a.path) ∧
    (∀ (appsDir : List String) (free : Nat → Bool) (now : Nat)
       (st : PaasState) (name : String) (entries : List ZipEntry) (app : App),
      (deployZip appsDir free now st name entries).result = .ok app →
      VersionPathsInv app) ∧
    (∀ (hmac : String → String → String) (now : Nat) (newCommit : Option String)
       (a : App) (sig body : Option String), VersionPathsInv a →
      VersionPathsInv (webhookForApp hmac now newCommit a sig body).app) ∧
    (∀ (a : App) (vid : String) (a' : App), VersionPathsInv a →
      rollbackApp a vid = .ok a' → VersionPathsInv a') := by
  have hrollok : ∀ (a : App) (vid : String) (a' : App),
      rollbackApp a vid = .ok a' →
      vid ≠ "" ∧ a' = { a with currentVersion := vid, status := "running" } ∧
      ∃ w, a.versions.find? (fun v => v.versionId == vid) = some w := by
    intro a vid a' h
    by_cases h0 : vid = ""
    · simp [rollbackApp, h0] at h
    · cases hfind : a.versions.find? (fun v => v.versionId == vid) with
      | none => simp [rollbackApp, h0, hfind] at h
      | some w =>
        by_cases hguard : w.path = a.path ∧ vid = a.currentVersion
        · simp only [rollbackApp, hfind] at h
          rw [if_neg h0, if_pos hguard] at h
          cases h
        · simp only [rollbackApp, hfind] at h
          rw [if_neg h0, if_neg hguard] at h
          simp only [Except.ok.injEq] at h
          exact ⟨h0, h.symm, w, rfl⟩
  have hnoop : ∀ (a : App) (vid : String), VersionPathsInv a → vid ≠ "" →
      vid = a.currentVersion →
      (∃ v ∈ a.versions, v.versionId = vid) →
      rollbackApp a vid = .error .alreadyAtVersion := by
    intro a vid hinv h0 hcur ⟨v, hv, hvid⟩
    have hsome : (a.versions.find? (fun w => w.versionId == vid)).isSome :=
      List.find?_isSome.mpr ⟨v, hv, by simp [hvid]⟩
    obtain ⟨w, hw⟩ := Option.isSome_iff_exists.mp hsome
    have hwid : w.versionId = vid := by
      have := List.find?_some hw
      simpa using this
    have hwmem : w ∈ a.versions := List.mem_of_find?_eq_some hw
    have hwpath : w.path = a.path := (hinv w hwmem).1
    simp only [rollbackApp, hw]
    rw [if_neg h0, if_pos ⟨hwpath, hcur⟩]
  refine ⟨?_, ?_, ?_, ?_, ?_⟩
  · intro a v hinv hv hcur
    exact hnoop a v.versionId hinv (hinv v hv).2 hcur ⟨v, hv, rfl⟩
  · intro a vid a' hinv hok
    obtain ⟨h0, ha', w, hw⟩ := hrollok a vid a' hok
    have hwid : w.versionId = vid := by
      have := List.find?_some hw
      simpa using this
    have hwmem : w ∈ a.versions := List.mem_of_find?_eq_some hw
    subst ha'
    refine ⟨?_, rfl, rfl⟩
    refine hnoop _ vid ?_ h0 rfl ⟨w, hwmem, hwid⟩
    intro x hx
    exact (hinv x hx)
  · intro appsDir free now st name entries app hok
    obtain ⟨-, -, -, -, happ, -⟩ := deployZip_ok_spec appsDir free now st name entries app hok
    rw [happ]
    intro v hv
    simp only [deployedApp] at hv ⊢
    simp at hv
    subst hv
    exact ⟨rfl, versionId_ne_empty now⟩
  · intro hmac now newCommit a sig body hinv
    cases hfind : a.versions.find? (fun v => v.versionId == a.currentVersion) with
    | none => simpa [webhookForApp, hfind] using hinv
    | some cv =>
      cases hgit : cv.gitUrl with
      | none => simpa [webhookForApp, hfind, hgit] using hinv
      | some gurl =>
        cases hsec : a.webhookSecret with
        | none => simpa [webhookForApp, hfind, hgit, hsec] using hinv
        | some secret =>
          cases sig with
          | none => simpa [webhookForApp, hfind, hgit, hsec] using hinv
          | some s =>
            cases body with
            | none => simpa [webhookForApp, hfind, hgit, hsec] using hinv
            | some b =>
              by_cases hs0 : s = ""
              · simpa [webhookForApp, hfind, hgit, hsec, hs0] using hinv
              · by_cases hsd : s = "sha256=" ++ hmac secret b
                · simp only [webhookForApp, hfind, hgit, hsec]
                  rw [if_neg hs0, if_neg (by simp [hsd])]
                  intro v hv
                  simp at hv
                  rcases hv with hv | hv
                  · exact (hinv v hv)
                  · subst hv
                    exact ⟨rfl, versionId_ne_empty now⟩
                · simpa [webhookForApp, hfind, hgit, hsec, hs0, hsd] using hinv
  · intro a vid a' hinv hok
    obtain ⟨h0, ha', w, hw⟩ := hrollok a vid a' hok
    subst ha'
    intro x hx
    exact hinv x hx

/-- Witness for C4: rolling the sample app back to its current version
`v1` answers `AlreadyAtVersion`. -/
theorem C4_witness :
    rollbackApp sampleGitApp "v1" = .error .alreadyAtVersion := by
  have h := (C4_rollback_already_at_version).1 sampleGitApp sampleGitVersion
    (by
      intro v hv
      simp [sampleGitApp] at hv
      subst hv
      exact ⟨rfl, by decide⟩)
    (by decide) rfl
  simpa [sampleGitVersion] using h

/-- C5 counterexample: an archive containing only `readme.txt` — no
manifest and no `index.html` — is not rejected with any
unclassifiable-project error: the deploy classifies it `static` and
registers the app. -/
theorem C5_counterexample :
    pathInZip ["apps", "misc"] [{ entryName := "readme.txt" }]
      (["apps", "misc"] ++ ["package.json"]) = false ∧
    pathInZip ["apps", "misc"] [{ entryName := "readme.txt" }]
      (["apps", "misc"] ++ ["index.html"]) = false ∧
    (deployZip ["apps"] (fun _ => true) 7 ⟨[], []⟩ "misc"
      [{ entryName := "readme.txt" }]).result.toOption.map App.type = some "static" ∧
    (deployZip ["apps"] (fun _ => true) 7 ⟨[], []⟩ "misc"
      [{ entryName := "readme.txt" }]).state.registry.map App.name = ["misc"] := by
  exact ⟨rfl, rfl, rfl, rfl⟩

/-- C5 amended: when the extracted root has no `package.json`, the deploy
classifies the app as `static` regardless of whether an `index.html` is
present, and (guards passing) registers it — the source has no
unclassifiable-project rejection. -/
theorem C5_no_manifest_means_static
    (appsDir : List String) (free : Nat → Bool) (now : Nat) (st : PaasState)
    (name : String) (entries : List ZipEntry) (port : Nat)
    (hname : name ≠ "")
    (hfresh : (appsDir ++ [normalizeName name]) ∉ st.dirs)
    (hext : extractEntries (appsDir ++ [normalizeName name]) entries = .ok ())
    (hport : findAvailablePort free (portStart st.registry) = .ok port)
    (hpkg : pathInZip (appsDir ++ [normalizeName name]) entries
      (appsDir ++ [normalizeName name] ++ ["package.json"]) = false) :
    (deployZip appsDir free now st name entries).result =
      .ok (deployedApp appsDir now name entries port) ∧
    (deployedApp appsDir now name entries port).type = "static" ∧
    deployedApp appsDir now name entries port ∈
      (deployZip appsDir free now st name entries).state.registry := by
  have hpkg2 : pathInZip (appsDir ++ [normalizeName name]) entries
      (appsDir ++ [normalizeName name, "package.json"]) = false := by
    simpa using hpkg
  have heq := deployZip_ok_eq appsDir free now st name entries port hname hfresh hext hport
  rw [heq]
  refine ⟨rfl, ?_, by simp⟩
  simp [deployedApp, hpkg2]

/-- Witness for the amended C5 at the `readme.txt`-only archive. -/
theorem C5_witness :
    (deployZip ["apps"] (fun _ => true) 7 ⟨[], []⟩ "misc"
      [{ entryName := "readme.txt" }]).result =
      .ok (deployedApp ["apps"] 7 "misc" [{ entryName := "readme.txt" }] 5200) ∧
    (deployedApp ["apps"] 7 "misc" [{ entryName := "readme.txt" }] 5200).type = "static" ∧
    deployedApp ["apps"] 7 "misc" [{ entryName := "readme.txt" }] 5200 ∈
      (deployZip ["apps"] (fun _ => true) 7 ⟨[], []⟩ "misc"
        [{ entryName := "readme.txt" }]).state.registry := by
  have hn : normalizeName "misc" = "misc" := by decide
  have h := C5_no_manifest_means_static ["apps"] (fun _ => true) 7 ⟨[], []⟩ "misc"
    [{ entryName := "readme.txt" }] 5200
    (by decide) (by simp) rfl rfl (by decide)
  simpa [hn] using h

/-- The embedded `updateAppStatus` updates exactly the first record with the given
name, as observed through `find?`. -/
theorem find?_updateFirstStatus (l : List App) (n s : String) :
    (updateFirstStatus l n s).find? (fun x => x.name == n) =
      (l.find? (fun x => x.name == n)).map (fun a => { a with status := s }) := by
  induction l with
  | nil => simp [updateFirstStatus]
  | cons a rest ih =>
    by_cases h : a.name = n
    · simp [updateFirstStatus, h, List.find?_cons]
    · simp [updateFirstStatus, h, List.find?_cons, ih]

/-- C6 counterexample: starting a registered, non-running app whose
working directory is gone answers `{ status: 'ok' }` — not an error — while
no child is spawned (the running set stays empty) and the record is
marked `stopped`. -/
theorem C6_counterexample :
    (startEndpoint (fun _ => false)
      ⟨[{ name := "x", port := 5200, type := "static", path := ["apps", "x"],
          status := "stopped", versions := [], currentVersion := "v1" }], [], []⟩
      "x").2 = .ok () ∧
    (startEndpoint (fun _ => false)
      ⟨[{ name := "x", port := 5200, type := "static", path := ["apps", "x"],
          status := "stopped", versions := [], currentVersion := "v1" }], [], []⟩
      "x").1.running = [] ∧
    (startEndpoint (fun _ => false)
      ⟨[{ name := "x", port := 5200, type := "static", path := ["apps", "x"],
          status := "stopped", versions := [], currentVersion := "v1" }], [], []⟩
      "x").1.apps.map App.status = ["stopped"] := by
  exact ⟨rfl, rfl, rfl⟩

/-- C6 amended: the start endpoint fails with `AppMissing` when the name
is not registered and with `AlreadyRunning` when a child is registered;
when the app is registered, not running and its working directory exists,
it answers ok with the child registered, the log stream open and status
`running`; but when the working directory is gone it still answers ok
while spawning nothing: the running set is unchanged, the log stream is
closed again and the status is set to `stopped` (there is no
`WorkingDirGone` error). -/
theorem C6_start_endpoint_behaviour (dirExists : List String → Bool)
    (st : SupervisorState) (name : String) :
    (st.apps.find? (fun x => x.name == name) = none →
      startEndpoint dirExists st name = (st, .error .appMissing)) ∧
    (∀ a, st.apps.find? (fun x => x.name == name) = some a →
      st.running.contains name = true →
      startEndpoint dirExists st name = (st, .error .alreadyRunning)) ∧
    (∀ a, st.apps.find? (fun x => x.name == name) = some a →
      st.running.contains name = false →
      dirExists a.path = true →
      (startEndpoint dirExists st name).2 = .ok () ∧
      name ∈ (startEndpoint dirExists st name).1.running ∧
      name ∈ (startEndpoint dirExists st name).1.logsOpen ∧
      ((startEndpoint dirExists st name).1.apps.find?
        (fun x => x.name == name)).map App.status = some "running") ∧
    (∀ a, st.apps.find? (fun x => x.name == name) = some a →
      st.running.contains name = false →
      dirExists a.path = false →
      st.logsOpen.Nodup →
      (startEndpoint dirExists st name).2 = .ok () ∧
      (startEndpoint dirExists st name).1.running = st.running ∧
      name ∉ (startEndpoint dirExists st name).1.logsOpen ∧
      ((startEndpoint dirExists st name).1.apps.find?
        (fun x => x.name == name)).map App.status = some "stopped") := by
  refine ⟨?_, ?_, ?_, ?_⟩
  · intro hfind
    simp [startEndpoint, hfind]
  · intro a hfind hrun
    simp only [startEndpoint, hfind]
    rw [if_pos hrun]
  · intro a hfind hrun hdir
    have hname : a.name = name := by
      have := List.find?_some hfind
      simpa using this
    subst hname
    have hstep : startEndpoint dirExists st a.name =
        (startAppProcess dirExists st a, .ok ()) := by
      simp only [startEndpoint, hfind]
      rw [if_neg (by intro hcon; rw [hrun] at hcon; cases hcon)]
    have happ : startAppProcess dirExists st a =
        { st with logsOpen := st.logsOpen.erase a.name ++ [a.name],
                  running := st.running ++ [a.name],
                  apps := updateFirstStatus st.apps a.name "running" } := by
      simp only [startAppProcess]
      rw [if_pos hdir]
    rw [hstep, happ]
    refine ⟨rfl, by simp, by simp, ?_⟩
    rw [find?_updateFirstStatus, hfind]
    rfl
  · intro a hfind hrun hdir hnodup
    have hname : a.name = name := by
      have := List.find?_some hfind
      simpa using this
    subst hname
    have hstep : startEndpoint dirExists st a.name =
        (startAppProcess dirExists st a, .ok ()) := by
      simp only [startEndpoint, hfind]
      rw [if_neg (by intro hcon; rw [hrun] at hcon; cases hcon)]
    have happ : startAppProcess dirExists st a =
        { st with logsOpen := (st.logsOpen.erase a.name ++ [a.name]).erase a.name,
                  apps := updateFirstStatus st.apps a.name "stopped" } := by
      simp only [startAppProcess]
      rw [if_neg (by simp [hdir])]
    rw [hstep, happ]
    refine ⟨rfl, rfl, ?_, ?_⟩
    · have hnot : a.name ∉ st.logsOpen.erase a.name := hnodup.not_mem_erase
      rw [List.erase_append_right _ hnot, List.erase_cons_head]
      simpa using hnot
    · rw [find?_updateFirstStatus, hfind]
      rfl

/-- Witness for C6: a one-app supervisor state exercising the missing-app,
running-dir and gone-dir conjuncts at concrete inputs. -/
theorem C6_witness :
    startEndpoint (fun _ => true) ⟨[], [], []⟩ "x" =
      (⟨[], [], []⟩, .error .appMissing) ∧
    ((startEndpoint (fun _ => true)
      ⟨[{ name := "x", port := 5200, type := "static", path := ["apps", "x"],
          status := "stopped", versions := [], currentVersion := "v1" }], [], []⟩
      "x").2 = .ok () ∧
     "x" ∈ (startEndpoint (fun _ => true)
      ⟨[{ name := "x", port := 5200, type := "static", path := ["apps", "x"],
          status := "stopped", versions := [], currentVersion := "v1" }], [], []⟩
      "x").1.running) ∧
    ((startEndpoint (fun _ => false)
      ⟨[{ name := "x", port := 5200, type := "static", path := ["apps", "x"],
          status := "stopped", versions := [], currentVersion := "v1" }], [], []⟩
      "x").2 = .ok () ∧
     (startEndpoint (fun _ => false)
      ⟨[{ name := "x", port := 5200, type := "static", path := ["apps", "x"],
          status := "stopped", versions := [], currentVersion := "v1" }], [], []⟩
      "x").1.running = []) := by
  refine ⟨?_, ?_, ?_⟩
  · exact (C6_start_endpoint_behaviour (fun _ => true) ⟨[], [], []⟩ "x").1 rfl
  · have h := (C6_start_endpoint_behaviour (fun _ => true)
      ⟨[{ name := "x", port := 5200, type := "static", path := ["apps", "x"],
          status := "stopped", versions := [], currentVersion := "v1" }], [], []⟩
      "x").2.2.1
      { name := "x", port := 5200, type := "static", path := ["apps", "x"],
        status := "stopped", versions := [], currentVersion := "v1" }
      rfl rfl rfl
    exact ⟨h.1, h.2.1⟩
  · have h := (C6_start_endpoint_behaviour (fun _ => false)
      ⟨[{ name := "x", port := 5200, type := "static", path := ["apps", "x"],
          status := "stopped", versions := [], currentVersion := "v1" }], [], []⟩
      "x").2.2.2
      { name := "x", port := 5200, type := "static", path := ["apps", "x"],
        status := "stopped", versions := [], currentVersion := "v1" }
      rfl rfl rfl (by simp)
    exact ⟨h.1, h.2.1⟩

/-- C7 counterexample: with one registered app holding port 6000 and every
port free at probe time (e.g. that app is stopped), a new deploy is
assigned port 6001 — not 5200, even though 5200 is free and is the lowest
free port at or above the 5200 floor.  The search floor is
`max(assigned) + 1`, not the configured floor. -/
theorem C7_counterexample :
    (deployZip ["apps"] (fun _ => true) 7
      ⟨[{ name := "old", port := 6000, type := "static", path := ["apps", "old"],
          status := "stopped", versions := [], currentVersion := "v0" }],
        [["apps", "old"]]⟩ "x"
      [{ entryName := "readme.txt" }]).result.toOption.map App.port = some 6001 ∧
    (fun (_ : Nat) => true) 5200 = true ∧
    (5200 : Nat) < 6001 ∧ START_PORT ≤ 5200 := by
  exact ⟨rfl, rfl, by decide, by decide⟩

/-- C7 amended: the deploy's assigned port is the lowest port passing the
bind probe at or above `portStart` — which is `maxPort + 1` over the
currently registered apps, and only equals the 5200 floor when the
registry is empty — and the allocation fails with the no-free-port error
when every port from `portStart` through 65000 is busy. -/
theorem C7_port_allocation
    (appsDir : List String) (free : Nat → Bool) (now : Nat) (st : PaasState)
    (name : String) (entries : List ZipEntry) :
    (∀ app, (deployZip appsDir free now st name entries).result = .ok app →
      free app.port = true ∧ portStart st.registry ≤ app.port ∧
      ∀ r, portStart st.registry ≤ r → r < app.port → free r = false) ∧
    (st.registry.isEmpty = true → portStart st.registry = START_PORT) ∧
    (st.registry.isEmpty = false → portStart st.registry = maxPort st.registry + 1) ∧
    (name ≠ "" → (appsDir ++ [normalizeName name]) ∉ st.dirs →
      extractEntries (appsDir ++ [normalizeName name]) entries = .ok () →
      portStart st.registry ≤ 65000 →
      (∀ r, portStart st.registry ≤ r → r ≤ 65000 → free r = false) →
      (deployZip appsDir free now st name entries).result = .error .noFreePort) := by
  refine ⟨?_, ?_, ?_, ?_⟩
  · intro app hok
    obtain ⟨-, -, -, hport, -, -⟩ :=
      deployZip_ok_spec appsDir free now st name entries app hok
    exact findPortLoop_ok_spec free 65002 (portStart st.registry) app.port hport
  · intro h
    simp [portStart, h, START_PORT]
  · intro h
    simp [portStart, h]
  · intro hname hfresh hext hle hbusy
    have hfail : findAvailablePort free (portStart st.registry) =
        .error .noFreePort :=
      findPortLoop_none_spec free 65002 (portStart st.registry)
        (by omega) hle hbusy
    simp [deployZip, hname, hfresh, hext, hfail]

/-- Witness for C7: the 6000-then-6001 allocation satisfies the
lowest-free-above-floor characterisation, and a registry whose maximum
port is 64999 with every port busy yields the no-free-port error. -/
theorem C7_witness :
    ((fun (_ : Nat) => true) 6001 = true ∧ (6001 : Nat) ≥ portStart
      [{ name := "old", port := 6000, type := "static", path := ["apps", "old"],
         status := "stopped", versions := [], currentVersion := "v0" }]) ∧
    (deployZip ["apps"] (fun _ => false) 7
      ⟨[{ name := "old", port := 64999, type := "static", path := ["apps", "old"],
          status := "stopped", versions := [], currentVersion := "v0" }],
        [["apps", "old"]]⟩ "x"
      [{ entryName := "readme.txt" }]).result = .error .noFreePort := by
  constructor
  · have h := (C7_port_allocation ["apps"] (fun _ => true) 7
      ⟨[{ name := "old", port := 6000, type := "static", path := ["apps", "old"],
          status := "stopped", versions := [], currentVersion := "v0" }],
        [["apps", "old"]]⟩ "x" [{ entryName := "readme.txt" }]).1
      (deployedApp ["apps"] 7 "x" [{ entryName := "readme.txt" }] 6001) rfl
    exact ⟨h.1, h.2.1⟩
  · exact (C7_port_allocation ["apps"] (fun _ => false) 7
      ⟨[{ name := "old", port := 64999, type := "static", path := ["apps", "old"],
          status := "stopped", versions := [], currentVersion := "v0" }],
        [["apps", "old"]]⟩ "x" [{ entryName := "readme.txt" }]).2.2.2
      (by decide) (by decide) rfl (by decide)
      (fun r _ _ => rfl)

/-- After erasing the first record with a given name from a registry with
pairwise-distinct names, no record with that name remains. -/
theorem eraseP_name_gone (l : List App) (n : String)
    (hnodup : (l.map App.name).Nodup) :
    ∀ b ∈ l.eraseP (fun x => x.name == n), b.name ≠ n := by
  induction l with
  | nil => simp
  | cons a rest ih =>
    simp only [List.map_cons, List.nodup_cons] at hnodup
    by_cases h : a.name = n
    · rw [List.eraseP_cons_of_pos (by simp [h])]
      intro b hb hbn
      exact hnodup.1 (List.mem_map.mpr ⟨b, hb, by rw [hbn, h]⟩)
    · rw [List.eraseP_cons_of_neg (by simp [h])]
      intro b hb
      rcases List.mem_cons.mp hb with rfl | hb
      · exact h
      · exact ih hnodup.2 b hb

/-- C8: the registry keeps app names pairwise distinct and assigned ports
pairwise distinct after every accepted deploy and after every delete —
stated as preservation of `RegistryInv` (whose first two conjuncts are
exactly those distinctness properties) by the deploy and delete
handlers. -/
theorem C8_registry_uniqueness (appsDir : List String) :
    (∀ (free : Nat → Bool) (now : Nat) (st : PaasState) (name : String)
       (entries : List ZipEntry) (app : App),
      RegistryInv appsDir st →
      (deployZip appsDir free now st name entries).result = .ok app →
      RegistryInv appsDir (deployZip appsDir free now st name entries).state) ∧
    (∀ (st : PaasState) (name : String) (st' : PaasState),
      RegistryInv appsDir st →
      deleteApp st name = (st', .ok ()) →
      RegistryInv appsDir st') := by
  constructor
  · intro free now st name entries app hinv hok
    obtain ⟨hnames, hports, hpaths⟩ := hinv
    obtain ⟨hname, hfresh, hext, hport, happ, hstate⟩ :=
      deployZip_ok_spec appsDir free now st name entries app hok
    have hportspec := findPortLoop_ok_spec free 65002 (portStart st.registry)
      app.port hport
    have happname : app.name = normalizeName name := by rw [happ]; rfl
    have happpath : app.path = appsDir ++ [normalizeName name] := by rw [happ]; rfl
    have hnotreg : ∀ b ∈ st.registry, b.name ≠ app.name := by
      intro b hb hbn
      have hb2 := hpaths b hb
      apply hfresh
      rw [← happname, ← hbn, ← hb2.1]
      exact hb2.2
    have hportlt : ∀ b ∈ st.registry, b.port < app.port := by
      intro b hb
      have hb1 : b.port ≤ maxPort st.registry := le_maxPort hb
      have hne : st.registry.isEmpty = false := by
        cases hreg : st.registry with
        | nil => rw [hreg] at hb; cases hb
        | cons x xs => simp [hreg]
      have hps1 : portStart st.registry = maxPort st.registry + 1 := by
        simp [portStart, hne]
      have hps2 := hportspec.2.1
      omega
    rw [hstate]
    refine ⟨?_, ?_, ?_⟩
    · rw [List.map_append]
      rw [List.nodup_append]
      refine ⟨hnames, by simp, ?_⟩
      intro x hx
      simp only [List.map_cons, List.map_nil, List.mem_cons, List.not_mem_nil,
        or_false, List.mem_singleton]
      obtain ⟨b, hb, rfl⟩ := List.mem_map.mp hx
      intro hcontra
      exact hnotreg b hb hcontra
    · rw [List.map_append, List.nodup_append]
      refine ⟨hports, by simp, ?_⟩
      intro x hx
      obtain ⟨b, hb, rfl⟩ := List.mem_map.mp hx
      simp only [List.map_cons, List.map_nil, List.mem_singleton]
      intro hcontra
      have := hportlt b hb
      omega
    · intro b hb
      rcases List.mem_append.mp hb with hb | hb
      · obtain ⟨hp1, hp2⟩ := hpaths b hb
        exact ⟨hp1, List.mem_append_left _ hp2⟩
      · rw [List.mem_singleton] at hb
        subst hb
        rw [happpath, happname]
        exact ⟨rfl, List.mem_append_right _ (by simp)⟩
  · intro st name st' hinv hdel
    obtain ⟨hnames, hports, hpaths⟩ := hinv
    cases hfind : st.registry.find? (fun a => a.name == name) with
    | none => simp [deleteApp, hfind] at hdel
    | some a =>
      simp only [deleteApp, hfind, Prod.mk.injEq] at hdel
      obtain ⟨hst', -⟩ := hdel
      have haname : a.name = name := by
        have := List.find?_some hfind
        simpa using this
      have hsub : (st.registry.eraseP (fun x => x.name == name)).Sublist
          st.registry := List.eraseP_sublist _
      rw [← hst']
      refine ⟨?_, ?_, ?_⟩
      · exact (hsub.map App.name).nodup hnames
      · exact (hsub.map App.port).nodup hports
      · intro b hb
        have hbmem : b ∈ st.registry := hsub.mem hb
        obtain ⟨hp1, hp2⟩ := hpaths b hbmem
        refine ⟨hp1, ?_⟩
        have hbname : b.name ≠ name := eraseP_name_gone st.registry name hnames b hb
        have hbpath : b.path ≠ a.path := by
          rw [hp1, (hpaths a (List.mem_of_find?_eq_some hfind)).1]
          intro hcontra
          have := List.append_cancel_left hcontra
          simp only [List.cons.injEq] at this
          exact hbname (this.1.trans haname)
        exact (List.mem_erase_of_ne hbpath).mpr hp2

/-- Witness for C8: deploying `site` into an empty platform preserves the
invariant, and deleting the only app of a one-app platform preserves it. -/
theorem C8_witness :
    RegistryInv ["apps"] (deployZip ["apps"] (fun _ => true) 7 ⟨[], []⟩ "site"
      [{ entryName := "index.html" }]).state ∧
    RegistryInv ["apps"]
      (deleteApp ⟨[{ name := "old", port := 6000, type := "static", path := ["apps", "old"], status := "stopped", versions := [], currentVersion := "v0" }], [["apps", "old"]]⟩ "old").1 := by
  constructor
  · exact (C8_registry_uniqueness ["apps"]).1 (fun _ => true) 7 ⟨[], []⟩ "site"
      [{ entryName := "index.html" }]
      (deployedApp ["apps"] 7 "site" [{ entryName := "index.html" }] 5200)
      ⟨by simp, by simp, by simp⟩ rfl
  · exact (C8_registry_uniqueness ["apps"]).2
      ⟨[{ name := "old", port := 6000, type := "static", path := ["apps", "old"], status := "stopped", versions := [], currentVersion := "v0" }], [["apps", "old"]]⟩ "old" ⟨[], []⟩
      ⟨by decide, by decide, by
        intro a ha
        simp at ha
        subst ha
        exact ⟨rfl, by decide⟩⟩ rfl

/-- C9 counterexample: the handler replaces every character outside
`[a-z0-9-]` individually, so the requested name `a__b` is registered as
`a--b`, not the `a-b` that replacing each maximal run with a single `-`
would give. -/
theorem C9_counterexample :
    normalizeName "a__b" = "a--b" ∧
    specNormalizeName "a__b" = "a-b" ∧
    normalizeName "a__b" ≠ specNormalizeName "a__b" ∧
    (deployZip ["apps"] (fun _ => true) 7 ⟨[], []⟩ "a__b"
      [{ entryName := "index.html" }]).state.registry.map App.name = ["a--b"] := by
  exact ⟨by decide, by decide, by decide, rfl⟩

/-- C9 amended: the deploy lowercases the requested name and replaces each
single character outside `[a-z0-9-]` with `-` (a run of `k` such
characters becomes `k` hyphens, so the normalised name has the length of
the request and is empty only for an empty request); the deploy is
rejected when the raw name is empty (`Faltan datos: name`) or when the
directory for the normalised name already exists — which, under the
registry invariant, covers every already-registered name; an accepted
deploy registers exactly the normalised name. -/
theorem C9_name_normalization
    (appsDir : List String) (free : Nat → Bool) (now : Nat) (st : PaasState)
    (name : String) (entries : List ZipEntry) :
    (normalizeName name).data = name.data.map jsLowerReplace ∧
    (normalizeName name).length = name.length ∧
    (name = "" →
      deployZip appsDir free now st name entries = ⟨st, .error .invalidName⟩) ∧
    (name ≠ "" → (appsDir ++ [normalizeName name]) ∈ st.dirs →
      deployZip appsDir free now st name entries = ⟨st, .error .appAlreadyExists⟩) ∧
    (RegistryInv appsDir st → name ≠ "" →
      normalizeName name ∈ st.registry.map App.name →
      deployZip appsDir free now st name entries = ⟨st, .error .appAlreadyExists⟩) ∧
    (∀ app, (deployZip appsDir free now st name entries).result = .ok app →
      app.name = normalizeName name) := by
  refine ⟨rfl, ?_, ?_, ?_, ?_, ?_⟩
  · show (name.data.map jsLowerReplace).length = name.length
    rw [List.length_map]
    rfl
  · intro h
    simp [deployZip, h]
  · intro hname hmem
    simp [deployZip, hname, hmem]
  · intro hinv hname hreg
    obtain ⟨b, hb, hbn⟩ := List.mem_map.mp hreg
    have hb2 := hinv.2.2 b hb
    have hmem : (appsDir ++ [normalizeName name]) ∈ st.dirs := by
      rw [← hbn, ← hb2.1]
      exact hb2.2
    simp [deployZip, hname, hmem]
  · intro app hok
    obtain ⟨-, -, -, -, happ, -⟩ :=
      deployZip_ok_spec appsDir free now st name entries app hok
    rw [happ]
    rfl

/-- Witness for the amended C9: the `a__b` deploy registers `a--b`, the
empty name is rejected, and a name colliding with an existing directory
is rejected. -/
theorem C9_witness :
    (deployedApp ["apps"] 7 "a__b" [{ entryName := "index.html" }] 5200).name =
      normalizeName "a__b" ∧
    deployZip ["apps"] (fun _ => true) 7 ⟨[], []⟩ "" [{ entryName := "index.html" }] =
      ⟨⟨[], []⟩, .error .invalidName⟩ ∧
    deployZip ["apps"] (fun _ => true) 7 ⟨[], [["apps", "a--b"]]⟩ "a__b"
      [{ entryName := "index.html" }] =
      ⟨⟨[], [["apps", "a--b"]]⟩, .error .appAlreadyExists⟩ := by
  refine ⟨?_, ?_, ?_⟩
  · exact (C9_name_normalization ["apps"] (fun _ => true) 7 ⟨[], []⟩ "a__b"
      [{ entryName := "index.html" }]).2.2.2.2.2
      (deployedApp ["apps"] 7 "a__b" [{ entryName := "index.html" }] 5200) rfl
  · exact (C9_name_normalization ["apps"] (fun _ => true) 7 ⟨[], []⟩ ""
      [{ entryName := "index.html" }]).2.2.1 rfl
  · exact (C9_name_normalization ["apps"] (fun _ => true) 7 ⟨[], [["apps", "a--b"]]⟩
      "a__b" [{ entryName := "index.html" }]).2.2.2.1 (by decide) (by decide)

/-- C10: when the app's current version records no git URL (or the current
version cannot be found), every webhook request is answered with the
git-not-configured error — whatever the configured secret and whatever
signature the request carries, so the check precedes the secret and
signature checks — and in particular every app produced by an archive
deploy (whose only version has `gitUrl: null`) can never be redeployed
via webhook. -/
theorem C10_webhook_requires_git
    (hmac : String → String → String) (now : Nat) (newCommit : Option String) :
    (∀ (a : App) (sig body : Option String),
      a.versions.find? (fun v => v.versionId == a.currentVersion) = none →
      webhookForApp hmac now newCommit a sig body = ⟨a, .error .gitNotConfigured⟩) ∧
    (∀ (a : App) (cv : AppVersion) (sig body : Option String),
      a.versions.find? (fun v => v.versionId == a.currentVersion) = some cv →
      cv.gitUrl = none →
      webhookForApp hmac now newCommit a sig body = ⟨a, .error .gitNotConfigured⟩) ∧
    (∀ (a : App) (cv : AppVersion) (s : Option String) (sig body : Option String),
      a.versions.find? (fun v => v.versionId == a.currentVersion) = some cv →
      cv.gitUrl = none →
      webhookForApp hmac now newCommit { a with webhookSecret := s } sig body =
        ⟨{ a with webhookSecret := s }, .error .gitNotConfigured⟩) ∧
    (∀ (appsDir : List String) (free : Nat → Bool) (nowD : Nat) (st : PaasState)
       (name : String) (entries : List ZipEntry) (app : App),
      (deployZip appsDir free nowD st name entries).result = .ok app →
      ∀ (sig body : Option String),
        webhookForApp hmac now newCommit app sig body =
          ⟨app, .error .gitNotConfigured⟩) := by
  refine ⟨?_, ?_, ?_, ?_⟩
  · intro a sig body hfind
    simp [webhookForApp, hfind]
  · intro a cv sig body hfind hgit
    simp [webhookForApp, hfind, hgit]
  · intro a cv s sig body hfind hgit
    simp [webhookForApp, hfind, hgit]
  · intro appsDir free nowD st name entries app hok sig body
    obtain ⟨-, -, -, -, happ, -⟩ :=
      deployZip_ok_spec appsDir free nowD st name entries app hok
    have hfind : app.versions.find? (fun v => v.versionId == app.currentVersion) =
        some { versionId := "v" ++ toString nowD, deployMethod := "zip",
               gitUrl := none, gitBranch := none, gitCommit := none,
               path := appsDir ++ [normalizeName name] } := by
      rw [happ]
      simp [deployedApp]
    simp [webhookForApp, hfind]

/-- Witness for C10: an archive-deployed app (the `site` deploy) rejects a
webhook request carrying an arbitrary signature with the
git-not-configured error. -/
theorem C10_witness :
    webhookForApp (fun s b => s ++ b) 9 none
      (deployedApp ["apps"] 7 "site" [{ entryName := "index.html" }] 5200)
      (some "sha256=zzz") (some "hello") =
      ⟨deployedApp ["apps"] 7 "site" [{ entryName := "index.html" }] 5200,
        .error .gitNotConfigured⟩ := by
  exact (C10_webhook_requires_git (fun s b => s ++ b) 9 none).2.2.2
    ["apps"] (fun _ => true) 7 ⟨[], []⟩ "site" [{ entryName := "index.html" }]
    (deployedApp ["apps"] 7 "site" [{ entryName := "index.html" }] 5200) rfl
    (some "sha256=zzz") (some "hello")

end MiniPaaS
